import Mathlib

/-!
Verification of `src/scripts/generate_market_blog.py`: a shallow embedding of
the daily market screening and news-relevance ranking pipeline, together with
theorems settling the frozen claims about it.

Modelling conventions:
* Python floats (percent change, turnover) are modelled as rationals `ℚ`;
  all arithmetic appearing in the script (comparisons, `*`, `/`, sums,
  median) is exact on the values involved, so no rounding behaviour is lost.
* Python `str` is modelled by `String`; `str.strip()` and `str.lower()` are
  modelled by explicit structural functions on the character list so that
  every definition evaluates inside the kernel.
* Python dicts are modelled by association lists (`List (String × β)`) with
  first-match lookup and update-in-place-or-append insertion, which is the
  observable behaviour of insertion-ordered dicts.
* `list.sort(key=..., reverse=True)` (Python's stable Timsort) is modelled by
  `List.insertionSort` with the "may precede" relation, which produces the
  same (unique) stable result.  `DataFrame.sort_values` is modelled the same
  way; its tie order is implementation-defined in pandas (default quicksort),
  and no theorem below depends on the tie order of that sort.
-/

set_option maxHeartbeats 1000000

namespace MarketBlog

/-! ### Constants of the script (lines 26-52) -/

/-- `MAX_NEWS_PER_STOCK` (line 28). -/
def MAX_NEWS_PER_STOCK : Nat := 3

/-- `TRUSTED_NEWS_SOURCES` (lines 29-46); a Python `set` of publisher names,
modelled as the list of its elements (only membership is ever used). -/
def TRUSTED_NEWS_SOURCES : List String :=
  [ "연합뉴스", "뉴시스", "머니투데이", "한국경제", "매일경제", "서울경제",
    "이데일리", "아시아경제", "파이낸셜뉴스", "한국경제TV", "뉴스1", "조선비즈",
    "전자신문", "헤럴드경제", "딜사이트", "Chosunbiz" ]

/-- `SOURCE_ALIAS` (lines 47-52). -/
def SOURCE_ALIAS : List (String × String) :=
  [ ("chosunbiz", "Chosunbiz"), ("조선비즈", "Chosunbiz"),
    ("매경닷컴", "매일경제"), ("mk.co.kr", "매일경제") ]

/-! ### String helpers

Structural models of the Python string operations used by the script. -/

/-- Model of `str.lower()` (ASCII case folding; the Korean characters used by
the script are unaffected by case folding). -/
def toLowerStr (s : String) : String := String.mk (s.data.map Char.toLower)

/-- Model of `str.strip()`: drop whitespace from both ends. -/
def trimStr (s : String) : String :=
  String.mk (((s.data.dropWhile Char.isWhitespace).reverse.dropWhile
    Char.isWhitespace).reverse)

/-- Does the character list `hay` start with `pat`? -/
def startsWithL : List Char → List Char → Bool
  | _, [] => true
  | [], _ :: _ => false
  | a :: as, b :: bs => a == b && startsWithL as bs

/-- Does `hay` contain `pat` as a contiguous sublist?  Model of Python's
`pat in hay` on strings. -/
def hasSubL : List Char → List Char → Bool
  | [], pat => pat.isEmpty
  | a :: t, pat => startsWithL (a :: t) pat || hasSubL t pat

/-- Python `pat in hay` for strings. -/
def strHasSub (hay pat : String) : Bool := hasSubL hay.data pat.data

/-- Split `hay` at the LAST occurrence of `pat`, if any: model of Python's
`hay.rsplit(pat, 1)` (together with the preceding `pat in hay` test).
The recursion prefers a match found further right. -/
def rsplitLast : List Char → List Char → Option (List Char × List Char)
  | [], pat => if pat.isEmpty then some ([], []) else none
  | a :: as, pat =>
    match rsplitLast as pat with
    | some (l, r) => some (a :: l, r)
    | none =>
      if startsWithL (a :: as) pat then some ([], (a :: as).drop pat.length)
      else none

/-- Python codepoint-lexicographic string comparison, used by `sorted(...)`
on the archive keys.  Executable by structural recursion. -/
def charsLe : List Char → List Char → Bool
  | [], _ => true
  | _ :: _, [] => false
  | a :: as, b :: bs =>
    if a.val < b.val then true
    else if b.val < a.val then false
    else charsLe as bs

/-- `≤` on strings as Python compares them (codepoint lexicographic). -/
def strle (a b : String) : Prop := charsLe a.data b.data = true

instance : DecidableRel strle := fun a b =>
  inferInstanceAs (Decidable (charsLe a.data b.data = true))

/-! ### Association lists: model of Python dicts

First-match lookup; assignment updates an existing key in place and appends a
fresh key at the end, exactly like an insertion-ordered dict. -/

/-- `m[k]` / `m.get(k)`: first value stored under key `k`. -/
def alookup {β : Type} : List (String × β) → String → Option β
  | [], _ => none
  | (k, v) :: rest, key => if k = key then some v else alookup rest key

/-- `m[k] = v`: update in place if the key exists, else append. -/
def ainsert {β : Type} : List (String × β) → String → β → List (String × β)
  | [], key, val => [(key, val)]
  | (k, v) :: rest, key, val =>
    if k = key then (k, val) :: rest else (k, v) :: ainsert rest key val

/-- `m.keys()` in insertion order. -/
def akeys {β : Type} (m : List (String × β)) : List String :=
  m.map (fun p => p.1)

/-! ### News relevance ranker: data (lines 111-202) -/

/-- Direction of the mover for which news are searched: `"up"` or `"down"`. -/
inductive Dir
  | up
  | down
deriving DecidableEq

/-- The `"up"` / `"down"` string, used in the cache key. -/
def dirStr : Dir → String
  | Dir.up => "up"
  | Dir.down => "down"

/-- One `<item>` of the RSS feed, after the `findtext` extraction of
lines 147-151: displayed title, link, publish date and `<source>` text
(each `""` when absent). -/
structure RawItem where
  title : String
  link : String
  pubDate : String
  source : String
deriving DecidableEq

/-- A scored news candidate (the dict built in lines 165-173). -/
structure Candidate where
  title : String
  link : String
  pubDate : String
  source : String
  score : Int
deriving DecidableEq

/-- A surviving news item (the dict built in lines 190-197; the score is
dropped). -/
structure NewsItem where
  title : String
  link : String
  pubDate : String
  source : String
deriving DecidableEq

/-! ### News relevance ranker: candidate construction (lines 131-173) -/

/-- `normalize_source_name` (lines 131-135): strip, then look the name up in
the alias table first case-folded, then verbatim, else keep it. -/
def normalize_source_name (source : String) : String :=
  let s := trimStr source
  if s = "" then ""
  else ((alookup SOURCE_ALIAS (toLowerStr s)).getD ((alookup SOURCE_ALIAS s).getD s))

/-- `split_title_source` (lines 137-142): split a Google-News title
`"<headline> - <publisher>"` at the last `" - "`. -/
def split_title_source (title : String) : String × String :=
  match rsplitLast title.data " - ".data with
  | some (l, r) => (trimStr (String.mk l), trimStr (String.mk r))
  | none => (trimStr title, "")

/-- `direction_words` (line 144). -/
def directionWords : Dir → List String
  | Dir.up => ["급등", "상승", "호재", "실적", "수주", "계약"]
  | Dir.down => ["급락", "하락", "악재", "리스크", "우려", "적자"]

/-- The loop body of lines 146-173 for one feed item: drop it when title or
link is empty, else split off the publisher suffix, normalise the source and
score the candidate (+4 name match, +2 direction keyword, +3 trusted
source). -/
def mkCandidate? (stockName : String) (dir : Dir) (it : RawItem) : Option Candidate :=
  let title := trimStr it.title
  let link := trimStr it.link
  let pubDate := trimStr it.pubDate
  let source0 := trimStr it.source
  if title = "" ∨ link = "" then none
  else
    let pr := split_title_source title
    let source := normalize_source_name (if source0 = "" then pr.2 else source0)
    let score : Int :=
      (if strHasSub pr.1 stockName then 4 else 0)
      + (if (directionWords dir).any (fun w => strHasSub pr.1 w) then 2 else 0)
      + (if source ∈ TRUSTED_NEWS_SOURCES then 3 else 0)
    some { title := pr.1, link := link, pubDate := pubDate, source := source,
           score := score }

/-- The candidate list built from a feed response (lines 145-173). -/
def mkCandidates (stockName : String) (dir : Dir) (items : List RawItem) :
    List Candidate :=
  items.filterMap (mkCandidate? stockName dir)

/-! ### News relevance ranker: sort, dedup, filter (lines 176-202) -/

/-- "`a` may precede `b`" for the stable descending-by-score sort of
line 176 (`candidates.sort(key=..., reverse=True)`). -/
def candLe (a b : Candidate) : Prop := b.score ≤ a.score

instance : DecidableRel candLe := fun a b =>
  inferInstanceAs (Decidable (b.score ≤ a.score))

instance : IsTotal Candidate candLe :=
  ⟨fun a b => le_total b.score a.score⟩

instance : IsTrans Candidate candLe :=
  ⟨fun _ _ _ hab hbc => le_trans hbc hab⟩

/-- `c["title"].strip().lower()` (line 180): the dedup key. -/
def normTitle (s : String) : String := toLowerStr (trimStr s)

/-- The deduplication step of the loop (lines 177-183): keep the first
candidate of each normalised title, ignoring titles already in `seen`.
The `seen` set is extended BEFORE the trust/score filters, exactly as the
code adds to `seen_titles` before its `continue` checks. -/
def dedupSeen (seen : List String) : List Candidate → List Candidate
  | [] => []
  | c :: rest =>
    if normTitle c.title ∈ seen then dedupSeen seen rest
    else c :: dedupSeen (normTitle c.title :: seen) rest

/-- The filter applied after dedup (lines 184-189): trusted source and
score at least 2. -/
def newsKeep (c : Candidate) : Bool :=
  decide (c.source ∈ TRUSTED_NEWS_SOURCES) && decide (2 ≤ c.score)

/-- Keep only candidates whose normalised title is `n`. -/
def normFilter (n : String) (l : List Candidate) : List Candidate :=
  l.filter (fun c => decide (normTitle c.title = n))

/-- Keep only candidates from trusted sources. -/
def trustedOnly (l : List Candidate) : List Candidate :=
  l.filter (fun c => decide (c.source ∈ TRUSTED_NEWS_SOURCES))

/-- Projection of a surviving candidate to the output item (lines 190-197). -/
def toNewsItem (c : Candidate) : NewsItem :=
  { title := c.title, link := c.link, pubDate := c.pubDate, source := c.source }

/-- Literal translation of the selection loop (lines 177-199): for each
candidate in order, skip it if its normalised title was seen; record the
title; skip untrusted sources; skip scores below 2; append the item and stop
once `MAX_NEWS_PER_STOCK` items are collected. -/
def rankAux : List Candidate → List String → List NewsItem → List NewsItem
  | [], _, items => items
  | c :: rest, seen, items =>
    if normTitle c.title ∈ seen then rankAux rest seen items
    else if c.source ∈ TRUSTED_NEWS_SOURCES then
      if c.score < 2 then rankAux rest (normTitle c.title :: seen) items
      else if MAX_NEWS_PER_STOCK ≤ (items ++ [toNewsItem c]).length then
        items ++ [toNewsItem c]
      else rankAux rest (normTitle c.title :: seen) (items ++ [toNewsItem c])
    else rankAux rest (normTitle c.title :: seen) items

/-- Sort (line 176) followed by the selection loop: the whole ranking
pipeline applied to a candidate list. -/
def rankNews (cands : List Candidate) : List NewsItem :=
  rankAux (cands.insertionSort candLe) [] []

/-- The in-process cache key `f"{stock_name}|{day}|{direction}"` (line 112);
the day is an ISO date string. -/
def newsKey (stockName day : String) (dir : Dir) : String :=
  stockName ++ "|" ++ day ++ "|" ++ dirStr dir

/-- `fetch_related_news` (lines 111-202).  The external fetch+parse of
lines 123-126 is passed in as `fetched`: `none` models any raised exception
(network error, timeout, malformed XML), `some items` a parsed feed.
Returns the news result together with the updated cache; the function is
total, modelling that no error propagates to the caller. -/
def fetch_related_news (cache : List (String × List NewsItem))
    (stockName day : String) (dir : Dir) (fetched : Option (List RawItem)) :
    List NewsItem × List (String × List NewsItem) :=
  let key := newsKey stockName day dir
  match alookup cache key with
  | some items => (items, cache)
  | none =>
    match fetched with
    | none => ([], ainsert cache key [])
    | some raws =>
      let items := rankNews (mkCandidates stockName dir raws)
      (items, ainsert cache key items)

/-! ### Commentary rule engine (lines 59-82) -/

/-- The `trend` branch of `stock_comment` (lines 60-73). -/
def trendLabel (rate : ℚ) : String :=
  if 20 ≤ rate then "급등 강세"
  else if 10 ≤ rate then "강한 상승"
  else if 5 ≤ rate then "상승 우위"
  else if rate ≤ -20 then "급락 약세"
  else if rate ≤ -10 then "강한 하락"
  else if rate ≤ -5 then "하락 우위"
  else "보합권 이탈"

/-- The `flow` branch of `stock_comment` (lines 75-80).  Note that BOTH the
concentration and the inflow thresholds are guarded by
`median_turnover > 0`. -/
def flowLabel (turnover median_turnover : ℚ) : String :=
  if 0 < median_turnover ∧ median_turnover * 5 ≤ turnover then "거래대금 집중"
  else if 0 < median_turnover ∧ median_turnover * 2 ≤ turnover then "거래 유입"
  else "거래 평이"

/-- `stock_comment` (lines 59-82). -/
def stock_comment (rate turnover median_turnover : ℚ) : String :=
  trendLabel rate ++ " · " ++ flowLabel turnover median_turnover

/-! ### Mover selector and report aggregator (lines 278-459) -/

/-- One row of the enriched day dataframe: ticker, display name, closing
price, percent change (`등락률`), traded volume (`거래량`) and turnover
(`거래대금`). -/
structure InstrumentDay where
  ticker : String
  name : String
  close : Int
  rate : ℚ
  volume : ℚ
  turnover : ℚ
deriving DecidableEq

/-- The liquidity/anomaly filter of line 294:
`(거래량 >= 1000) & (등락률 <= 30) & (등락률 >= -30)`. -/
def marketFilter (rows : List InstrumentDay) : List InstrumentDay :=
  rows.filter (fun r => decide (1000 ≤ r.volume ∧ r.rate ≤ 30 ∧ -30 ≤ r.rate))

/-- "`a` may precede `b`" for the descending-by-rate sort of line 296. -/
def rateDescLe (a b : InstrumentDay) : Prop := b.rate ≤ a.rate

instance : DecidableRel rateDescLe := fun a b =>
  inferInstanceAs (Decidable (b.rate ≤ a.rate))

instance : IsTotal InstrumentDay rateDescLe :=
  ⟨fun a b => le_total b.rate a.rate⟩

instance : IsTrans InstrumentDay rateDescLe :=
  ⟨fun _ _ _ hab hbc => le_trans hbc hab⟩

/-- "`a` may precede `b`" for the ascending-by-rate sort of line 297. -/
def rateAscLe (a b : InstrumentDay) : Prop := a.rate ≤ b.rate

instance : DecidableRel rateAscLe := fun a b =>
  inferInstanceAs (Decidable (a.rate ≤ b.rate))

instance : IsTotal InstrumentDay rateAscLe :=
  ⟨fun a b => le_total a.rate b.rate⟩

instance : IsTrans InstrumentDay rateAscLe :=
  ⟨fun _ _ _ hab hbc => le_trans hab hbc⟩

/-- `≤` on rationals, named so the sort relation is a plain constant. -/
def qle (a b : ℚ) : Prop := a ≤ b

instance : DecidableRel qle := fun a b => inferInstanceAs (Decidable (a ≤ b))

/-- `Series.median()` (line 299): middle element of the sorted values, or the
mean of the two middle elements for an even count.  Pandas returns `NaN` on
an empty series; the `0` returned here is never observable because report
building fails on an empty filtered set before the median is used (see
`buildDayReport`). -/
def medianQ (l : List ℚ) : ℚ :=
  let s := l.insertionSort qle
  let n := l.length
  if n = 0 then 0
  else if n % 2 = 1 then s.getD (n / 2) 0
  else (s.getD (n / 2 - 1) 0 + s.getD (n / 2) 0) / 2

/-- Output of the mover-selection part of `build_day_report`
(lines 294-311): top-30 lists, filtered-set median turnover,
advance/decline/flat counts and the top-5 turnover concentration. -/
structure MoversOut where
  gainers : List InstrumentDay
  losers : List InstrumentDay
  medianTurnover : ℚ
  advance : Nat
  decline : Nat
  flat : Nat
  topFocus : ℚ
deriving DecidableEq

/-- Lines 294-311 of `build_day_report`: filter, sort both ways, take the
top 30, median turnover, breadth counts, and
`top_focus = gainers.head(5) turnover sum / total * 100 if total else 0`. -/
def selectMovers (rows : List InstrumentDay) : MoversOut :=
  let df := marketFilter rows
  let gainers := (df.insertionSort rateDescLe).take 30
  let losers := (df.insertionSort rateAscLe).take 30
  let med := medianQ (df.map (fun r => r.turnover))
  let adv := df.countP (fun r => decide (0 < r.rate))
  let dec := df.countP (fun r => decide (r.rate < 0))
  let flat := df.countP (fun r => decide (r.rate = 0))
  let total := (df.map (fun r => r.turnover)).sum
  let top5 := ((gainers.take 5).map (fun r => r.turnover)).sum
  let tf := if total ≠ 0 then top5 / total * 100 else 0
  { gainers := gainers, losers := losers, medianTurnover := med,
    advance := adv, decline := dec, flat := flat, topFocus := tf }

/-- The per-day report record of `build_day_report` as far as the claims are
concerned: the mover-selection outputs plus the representative strongest and
weakest mover (`gainers.iloc[0]` / `losers.iloc[0]`, lines 446-447). -/
structure DayReport where
  movers : MoversOut
  strong : InstrumentDay
  weak : InstrumentDay
deriving DecidableEq

/-- `build_day_report` (lines 278-459) restricted to its data content.
`gainers.iloc[0]` and `losers.iloc[0]` raise `IndexError` on an empty frame;
that failure is modelled by `none`. -/
def buildDayReport (rows : List InstrumentDay) : Option DayReport :=
  let m := selectMovers rows
  match m.gainers.head?, m.losers.head? with
  | some s, some w => some { movers := m, strong := s, weak := w }
  | _, _ => none

/-! ### Archive merge (lines 567-649)

A persisted record is a JSON object; its scalar field values are modelled as
strings (the script only ever formats them, never computes with them). -/

/-- A record of the metadata archive: JSON object as key-value list. -/
abbrev Rec := List (String × String)

/-- `record.get(key, default)`. -/
def recGetD (r : Rec) (k dflt : String) : String := (alookup r k).getD dflt

/-- `compact_meta` (lines 589-599). -/
def compact_meta (r : Rec) : Rec :=
  [ ("date", recGetD r "date" "-"),
    ("path", recGetD r "path" ""),
    ("strong", recGetD r "strong" "-"),
    ("weak", recGetD r "weak" "-"),
    ("advance", recGetD r "advance" "-"),
    ("decline", recGetD r "decline" "-"),
    ("flat", recGetD r "flat" "-"),
    ("top_focus", recGetD r "top_focus" "-") ]

/-- The fields of one freshly computed day report as written into
`report_meta` (lines 617-626). -/
structure NewReport where
  date : String
  path : String
  strong : String
  weak : String
  advance : String
  decline : String
  flat : String
  top_focus : String
deriving DecidableEq

/-- The record literal of lines 617-626. -/
def newRecordRec (r : NewReport) : Rec :=
  [ ("date", r.date), ("path", r.path), ("strong", r.strong),
    ("weak", r.weak), ("advance", r.advance), ("decline", r.decline),
    ("flat", r.flat), ("top_focus", r.top_focus) ]

/-- The placeholder record synthesised for an orphaned report file
(lines 629-640). -/
def placeholderRec (d : String) : Rec :=
  [ ("date", d), ("path", "reports/" ++ d ++ ".html"), ("strong", "-"),
    ("weak", "-"), ("advance", "-"), ("decline", "-"), ("flat", "-"),
    ("top_focus", "-") ]

/-- The date a record is re-keyed by in the final archive write
(`r["date"]`, line 647; always present on a compacted record). -/
def recDate (r : Rec) : String := recGetD r "date" "-"

/-- The per-day loop of lines 611-626: each recomputed day's record is
assigned into the archive under its date. -/
def metaAfterNews (existing : List (String × Rec)) (news : List NewReport) :
    List (String × Rec) :=
  news.foldl (fun m r => ainsert m r.date (newRecordRec r)) existing

/-- The back-fill loop of lines 629-640: every report date discovered on
disk with no archive entry gets a placeholder record. -/
def metaAfterDisc (m : List (String × Rec)) (discovered : List String) :
    List (String × Rec) :=
  discovered.foldl
    (fun m d => if (alookup m d).isSome then m else ainsert m d (placeholderRec d))
    m

/-- Line 642: the records of the archive, compacted, in sorted key order. -/
def reportsOf (m : List (String × Rec)) : List Rec :=
  ((akeys m).insertionSort strle).map
    (fun d => compact_meta ((alookup m d).getD []))

/-- The archive merge performed by `main` (lines 604-647): start from the
loaded archive, overwrite/add the recomputed dates, back-fill placeholder
records for report files found on disk with no archive entry
(`discovered`), compact every record in sorted key order, and re-key the
result by each record's own `date` field (line 647). -/
def runMerge (existing : List (String × Rec)) (news : List NewReport)
    (discovered : List String) : List (String × Rec) :=
  (reportsOf (metaAfterDisc (metaAfterNews existing news) discovered)).foldl
    (fun m r => ainsert m (recDate r) r) []

/-- Well-formedness of one archive entry: the record is in compact shape and
its `date` field agrees with its key.  Every record this script itself
writes (lines 617-626, 629-640, 646-648) has this shape. -/
def recWF (k : String) (r : Rec) : Prop :=
  compact_meta r = r ∧ alookup r "date" = some k

instance (k : String) (r : Rec) : Decidable (recWF k r) :=
  inferInstanceAs (Decidable (compact_meta r = r ∧ alookup r "date" = some k))

/-! ### Concrete inputs used by counterexamples and witnesses -/

/-- A feed item whose headline differs from `exRawB`'s only in case; its
headline does not contain the query name `"ACME"` literally, so it scores
3 (trusted source only). -/
def exRawA : RawItem :=
  { title := "Acme Up", link := "http://a", pubDate := "d1", source := "연합뉴스" }

/-- A feed item scoring 7 (+4 literal name match, +3 trusted source). -/
def exRawB : RawItem :=
  { title := "ACME Up", link := "http://b", pubDate := "d2", source := "연합뉴스" }

/-- The candidate the ranker builds from `exRawA`. -/
def exCandA : Candidate :=
  { title := "Acme Up", link := "http://a", pubDate := "d1",
    source := "연합뉴스", score := 3 }

/-- The candidate the ranker builds from `exRawB`. -/
def exCandB : Candidate :=
  { title := "ACME Up", link := "http://b", pubDate := "d2",
    source := "연합뉴스", score := 7 }

/-- An instrument row failing the liquidity filter (volume 5 < 1000). -/
def exRow0 : InstrumentDay :=
  { ticker := "000001", name := "LowVol", close := 100, rate := 1,
    volume := 5, turnover := 10 }

/-- A qualifying gaining row. -/
def exRowG : InstrumentDay :=
  { ticker := "000002", name := "Alpha", close := 500, rate := 3,
    volume := 2000, turnover := 50 }

/-- A qualifying declining row. -/
def exRowH : InstrumentDay :=
  { ticker := "000003", name := "Beta", close := 700, rate := -2,
    volume := 3000, turnover := 80 }

/-- A two-row market day. -/
def exRows : List InstrumentDay := [exRowG, exRowH]

/-- An archive whose single record's `date` field does not match its key. -/
def exBadArchive : List (String × Rec) :=
  [("2024-01-01", [("date", "9999-12-31")])]

/-- A well-formed single-entry archive. -/
def exGoodArchive : List (String × Rec) :=
  [("2024-01-01", placeholderRec "2024-01-01")]

/-! ## Theorems -/

/-! ### News pipeline helper lemmas -/

/-- Deduplication only ever drops candidates. -/
theorem mem_dedupSeen {c : Candidate} :
    ∀ {l : List Candidate} {seen : List String}, c ∈ dedupSeen seen l → c ∈ l := by
  intro l
  induction l with
  | nil => intro seen h; exact absurd h (by simp [dedupSeen])
  | cons d rest ih =>
    intro seen h
    rw [dedupSeen] at h
    by_cases hm : normTitle d.title ∈ seen
    · rw [if_pos hm] at h
      exact List.mem_cons_of_mem d (ih h)
    · rw [if_neg hm] at h
      rcases List.mem_cons.1 h with h | h
      · exact h ▸ List.mem_cons_self d rest
      · exact List.mem_cons_of_mem d (ih h)

/-- Among the candidates sharing one normalised title, `dedupSeen` keeps
exactly the first one (and none at all if the title was pre-seen). -/
theorem dedupSeen_normFilter (n : String) :
    ∀ (l : List Candidate) (seen : List String),
    normFilter n (dedupSeen seen l) =
      if n ∈ seen then [] else (normFilter n l).take 1 := by
  intro l
  induction l with
  | nil => intro seen; simp [dedupSeen, normFilter]
  | cons c rest ih =>
    intro seen
    by_cases hm : normTitle c.title ∈ seen
    · rw [dedupSeen, if_pos hm, ih seen]
      by_cases hn : n ∈ seen
      · simp [hn]
      · have hne : ¬ normTitle c.title = n := fun h => hn (h ▸ hm)
        simp [hn, normFilter, List.filter_cons, hne]
    · rw [dedupSeen, if_neg hm]
      by_cases he : normTitle c.title = n
      · have hn : n ∉ seen := fun h => hm (he ▸ h)
        have h2 := ih (normTitle c.title :: seen)
        rw [if_pos (he ▸ List.mem_cons_self (normTitle c.title) seen)] at h2
        simp [normFilter, List.filter_cons, he, hn] at h2 ⊢
        simpa [normFilter] using h2
      · have h2 := ih (normTitle c.title :: seen)
        by_cases hn : n ∈ seen
        · rw [if_pos (List.mem_cons_of_mem _ hn)] at h2
          simp [normFilter, List.filter_cons, he, hn] at h2 ⊢
          simpa [normFilter] using h2
        · have hn2 : n ∉ normTitle c.title :: seen := by
            intro hx
            rcases List.mem_cons.1 hx with hx | hx
            · exact he hx.symm
            · exact hn hx
          rw [if_neg hn2] at h2
          simp [normFilter, List.filter_cons, he, hn] at h2 ⊢
          simpa [normFilter] using h2

/-! ### C1: news deduplication -/

/--
C1 (counterexample).  The claim says that of two candidates of one feed
response whose headlines agree after trimming and lowercasing, the survivor
of the deduplication step is the FIRST-SEEN one in feed order.  In the code
the deduplication runs on the score-sorted list, so the higher-scored later
feed item wins.  Concretely, for the query name `"ACME"` the feed
`[exRawA, exRawB]` produces candidates titled `"Acme Up"` (score 3, first
in feed) and `"ACME Up"` (score 7), with equal normalised titles; the unique
survivor is the second-in-feed `"ACME Up"` candidate, and it is also the one
returned by the whole pipeline.
-/
theorem dedup_feed_order_counterexample :
    mkCandidates "ACME" Dir.up [exRawA, exRawB] = [exCandA, exCandB] ∧
    normTitle exCandA.title = normTitle exCandB.title ∧
    normFilter (normTitle exCandA.title)
      (dedupSeen [] ((mkCandidates "ACME" Dir.up [exRawA, exRawB]).insertionSort candLe))
      = [exCandB] ∧
    exCandB ≠ exCandA ∧
    rankNews (mkCandidates "ACME" Dir.up [exRawA, exRawB]) = [toNewsItem exCandB] := by
  decide

/--
C1 (amended).  For every candidate list and every normalised title
occurring in it, exactly one candidate with that normalised title survives
the deduplication step, namely the one occurring first in the post-sort
order (stable descending by score); this coincides with feed order exactly
when the scores tie.
-/
theorem dedup_unique_survivor_sorted (cs : List Candidate) (n : String)
    (h : ∃ c ∈ cs, normTitle c.title = n) :
    normFilter n (dedupSeen [] (cs.insertionSort candLe)) =
      (normFilter n (cs.insertionSort candLe)).take 1 ∧
    (normFilter n (dedupSeen [] (cs.insertionSort candLe))).length = 1 := by
  have hs := dedupSeen_normFilter n (cs.insertionSort candLe) []
  rw [if_neg (List.not_mem_nil n)] at hs
  refine ⟨hs, ?_⟩
  rw [hs]
  obtain ⟨c, hc, hcn⟩ := h
  have hmem : c ∈ cs.insertionSort candLe :=
    (List.perm_insertionSort candLe cs).mem_iff.2 hc
  have hf : c ∈ normFilter n (cs.insertionSort candLe) :=
    List.mem_filter.2 ⟨hmem, by simp [hcn]⟩
  cases hE : normFilter n (cs.insertionSort candLe) with
  | nil => rw [hE] at hf; exact absurd hf (List.not_mem_nil c)
  | cons a t => simp [hE]

/-- C1 witness: the amended statement evaluated on the concrete two-candidate
feed. -/
theorem dedup_unique_survivor_sorted_witness :
    normFilter "acme up" (dedupSeen [] ([exCandA, exCandB].insertionSort candLe)) =
      (normFilter "acme up" ([exCandA, exCandB].insertionSort candLe)).take 1 ∧
    (normFilter "acme up" (dedupSeen [] ([exCandA, exCandB].insertionSort candLe))).length = 1 :=
  dedup_unique_survivor_sorted [exCandA, exCandB] "acme up"
    ⟨exCandA, by decide, by decide⟩

/-! ### C6: only trusted sources survive -/

/-- Invariant of the selection loop: if all already-collected items come from
trusted sources, so do all items of the final result (a candidate is only
appended after passing the allow-list check of line 185). -/
theorem rankAux_source_trusted :
    ∀ (cs : List Candidate) (seen : List String) (items : List NewsItem),
    (∀ i ∈ items, i.source ∈ TRUSTED_NEWS_SOURCES) →
    ∀ i ∈ rankAux cs seen items, i.source ∈ TRUSTED_NEWS_SOURCES := by
  intro cs
  induction cs with
  | nil => intro seen items h i hi; rw [rankAux] at hi; exact h i hi
  | cons c rest ih =>
    intro seen items h i hi
    rw [rankAux] at hi
    by_cases h1 : normTitle c.title ∈ seen
    · rw [if_pos h1] at hi; exact ih seen items h i hi
    · rw [if_neg h1] at hi
      by_cases h2 : c.source ∈ TRUSTED_NEWS_SOURCES
      · rw [if_pos h2] at hi
        by_cases h3 : c.score < 2
        · rw [if_pos h3] at hi; exact ih _ items h i hi
        · rw [if_neg h3] at hi
          have h' : ∀ j ∈ items ++ [toNewsItem c],
              j.source ∈ TRUSTED_NEWS_SOURCES := by
            intro j hj
            rcases List.mem_append.1 hj with hj | hj
            · exact h j hj
            · rw [List.mem_singleton.1 hj]; exact h2
          by_cases h4 : MAX_NEWS_PER_STOCK ≤ (items ++ [toNewsItem c]).length
          · rw [if_pos h4] at hi; exact h' i hi
          · rw [if_neg h4] at hi; exact ih _ _ h' i hi
      · rw [if_neg h2] at hi; exact ih _ items h i hi

/--
C6 (confirmed).  For every feed response, every item of the returned
`NewsResult` carries a trusted source; equivalently, a candidate whose
normalised source is not on the fixed allow-list never appears in the
result, whatever its score.
-/
theorem rankNews_only_trusted (stockName : String) (dir : Dir)
    (raws : List RawItem) :
    ∀ i ∈ rankNews (mkCandidates stockName dir raws),
      i.source ∈ TRUSTED_NEWS_SOURCES :=
  fun i hi => rankAux_source_trusted _ [] [] (by intro j hj; cases hj) i hi

/-- C6 witness: the single-item concrete feed yields an item and its source
is on the allow-list. -/
theorem rankNews_only_trusted_witness :
    (toNewsItem exCandB).source ∈ TRUSTED_NEWS_SOURCES :=
  rankNews_only_trusted "ACME" Dir.up [exRawB] (toNewsItem exCandB) (by decide)

/-! ### C10: trusted candidates always score at least 3 -/

/--
C10 (confirmed).  Every candidate built from a feed item whose (normalised)
source is trusted got the +3 source bonus of line 163, hence scores at
least 3; consequently the `score < 2` drop of line 188 never removes a
candidate that already passed the allow-list check, i.e. on the deduplicated
sorted candidates the combined keep-filter equals the plain trusted-source
filter.
-/
theorem trusted_implies_score_ge_three (stockName : String) (dir : Dir)
    (raws : List RawItem) :
    (∀ c ∈ mkCandidates stockName dir raws,
        c.source ∈ TRUSTED_NEWS_SOURCES → 3 ≤ c.score) ∧
    (dedupSeen [] ((mkCandidates stockName dir raws).insertionSort candLe)).filter newsKeep
      = trustedOnly
          (dedupSeen [] ((mkCandidates stockName dir raws).insertionSort candLe)) := by
  have hscore : ∀ c ∈ mkCandidates stockName dir raws,
      c.source ∈ TRUSTED_NEWS_SOURCES → 3 ≤ c.score := by
    intro c hc htr
    obtain ⟨raw, _, hmk⟩ := List.mem_filterMap.1 hc
    simp only [mkCandidate?] at hmk
    by_cases hempty : trimStr raw.title = "" ∨ trimStr raw.link = ""
    · rw [if_pos hempty] at hmk; exact absurd hmk (by simp)
    · rw [if_neg hempty] at hmk
      have hceq := Option.some.inj hmk
      rw [← hceq] at htr ⊢
      simp only at htr ⊢
      rw [if_pos htr]
      have h4 : (0:Int) ≤ if strHasSub
          (split_title_source (trimStr raw.title)).1 stockName then 4 else 0 := by
        split <;> norm_num
      have h2 : (0:Int) ≤ if (directionWords dir).any
          (fun w => strHasSub (split_title_source (trimStr raw.title)).1 w)
          then 2 else 0 := by
        split <;> norm_num
      omega
  refine ⟨hscore, ?_⟩
  apply List.filter_congr
  intro c hcd
  have hc : c ∈ mkCandidates stockName dir raws :=
    (List.perm_insertionSort candLe _).mem_iff.1 (mem_dedupSeen hcd)
  by_cases ht : c.source ∈ TRUSTED_NEWS_SOURCES
  · have h3 := hscore c hc ht
    have h2 : (2:Int) ≤ c.score := by omega
    simp [newsKeep, ht, h2]
  · simp [newsKeep, ht]

/-- C10 witness: the concrete trusted candidate scores 7 ≥ 3, and on the
concrete feed the combined filter agrees with the plain trusted filter. -/
theorem trusted_implies_score_ge_three_witness :
    3 ≤ exCandB.score ∧
    (dedupSeen [] ((mkCandidates "ACME" Dir.up [exRawB]).insertionSort candLe)).filter newsKeep
      = trustedOnly
          (dedupSeen [] ((mkCandidates "ACME" Dir.up [exRawB]).insertionSort candLe)) :=
  ⟨(trusted_implies_score_ge_three "ACME" Dir.up [exRawB]).1 exCandB
      (by decide) (by decide),
   (trusted_implies_score_ge_three "ACME" Dir.up [exRawB]).2⟩

/-! ### C8: news fetch failures degrade to an empty result -/

/--
C8 (confirmed).  For a key not yet cached, a failed fetch/parse
(`fetched = none`, i.e. any exception raised in lines 124-126) makes
`fetch_related_news` return the empty news result and cache it under the
key; the function is total, so no error propagates to the caller.  (For a
key already in the cache no fetch happens at all.)
-/
theorem fetch_failure_empty (cache : List (String × List NewsItem))
    (stockName day : String) (dir : Dir)
    (h : alookup cache (newsKey stockName day dir) = none) :
    fetch_related_news cache stockName day dir none =
      ([], ainsert cache (newsKey stockName day dir) []) := by
  simp [fetch_related_news, h]

/-- C8 witness: failure on an empty cache. -/
theorem fetch_failure_empty_witness :
    fetch_related_news [] "ACME" "2024-01-02" Dir.up none =
      ([], ainsert [] (newsKey "ACME" "2024-01-02" Dir.up) []) :=
  fetch_failure_empty [] "ACME" "2024-01-02" Dir.up rfl

/-! ### C4: the commentary flow bucket -/

/--
C4 (counterexample).  The claim states the flow bucket is
"turnover concentration" iff `median > 0 ∧ turnover ≥ 5·median`, and OTHERWISE
"turnover inflow" iff `turnover ≥ 2·median` — without the `median > 0` guard
on the inflow branch.  At `turnover = 5`, `median = 0` the claim then demands
"turnover inflow" (`5 ≥ 0`), but the code's `median_turnover > 0` guard on
BOTH branches (lines 75-77) yields "turnover ordinary".
-/
theorem flowLabel_claim_counterexample :
    ¬ ( (flowLabel 5 0 = "거래대금 집중" ↔ (0 < (0:ℚ) ∧ (0:ℚ) * 5 ≤ 5)) ∧
        (¬ (0 < (0:ℚ) ∧ (0:ℚ) * 5 ≤ 5) →
          ((flowLabel 5 0 = "거래 유입" ↔ (0:ℚ) * 2 ≤ 5) ∧
           (¬ ((0:ℚ) * 2 ≤ 5) → flowLabel 5 0 = "거래 평이"))) ) := by
  rintro ⟨-, h2⟩
  have hguard : ¬ (0 < (0:ℚ) ∧ (0:ℚ) * 5 ≤ 5) := by
    rintro ⟨h, -⟩; exact lt_irrefl 0 h
  have ht : (0:ℚ) * 2 ≤ 5 := by norm_num
  have hfl : flowLabel 5 0 = "거래 유입" := ((h2 hguard).1).2 ht
  have hord : flowLabel 5 0 = "거래 평이" := by
    unfold flowLabel
    rw [if_neg hguard, if_neg]
    rintro ⟨h, -⟩; exact lt_irrefl 0 h
  rw [hord] at hfl
  exact absurd hfl (by decide)

/--
C4 (amended).  For every `(turnover, medianTurnover)` the flow bucket is
"turnover concentration" iff `median > 0 ∧ turnover ≥ 5·median`;
"turnover inflow" iff that fails and `median > 0 ∧ turnover ≥ 2·median`;
and "turnover ordinary" otherwise (in particular whenever `median ≤ 0`).
The bucket does not depend on the percent change, which only selects the
momentum half of `stock_comment`.
-/
theorem flowLabel_spec (t m : ℚ) :
    (flowLabel t m = "거래대금 집중" ↔ (0 < m ∧ m * 5 ≤ t)) ∧
    (flowLabel t m = "거래 유입" ↔ (¬ (0 < m ∧ m * 5 ≤ t) ∧ 0 < m ∧ m * 2 ≤ t)) ∧
    (flowLabel t m = "거래 평이" ↔
      (¬ (0 < m ∧ m * 5 ≤ t) ∧ ¬ (0 < m ∧ m * 2 ≤ t))) := by
  unfold flowLabel
  split_ifs with h1 h2
  · exact ⟨⟨fun _ => h1, fun _ => rfl⟩,
      ⟨fun he => absurd he (by decide), fun hc => absurd h1 hc.1⟩,
      ⟨fun he => absurd he (by decide), fun hc => absurd h1 hc.1⟩⟩
  · exact ⟨⟨fun he => absurd he (by decide), fun hc => absurd hc h1⟩,
      ⟨fun _ => ⟨h1, h2⟩, fun _ => rfl⟩,
      ⟨fun he => absurd he (by decide), fun hc => absurd h2 hc.2⟩⟩
  · exact ⟨⟨fun he => absurd he (by decide), fun hc => absurd hc h1⟩,
      ⟨fun he => absurd he (by decide), fun hc => absurd hc.2 h2⟩,
      ⟨fun _ => ⟨h1, h2⟩, fun _ => rfl⟩⟩

/-- The full comment string is the momentum label joined with the flow
label; the flow half is exactly `flowLabel`. -/
theorem stock_comment_flow (rate t m : ℚ) :
    stock_comment rate t m = trendLabel rate ++ " · " ++ flowLabel t m := rfl

/-! ### Mover selector helper lemmas -/

/-- `head?` is unchanged by a nonzero-length `take`. -/
theorem head?_take {α : Type} (n : Nat) (l : List α) (hn : n ≠ 0) :
    (l.take n).head? = l.head? := by
  cases n with
  | zero => exact absurd rfl hn
  | succ m => cases l <;> simp

/-! ### C5: filter bounds, sortedness, length bounds -/

/--
C5 (confirmed).  Every row retained by the filter of line 294 has volume at
least 1000 and percent change within `[-30, 30]`; the gainer list is
non-increasing in percent change (`rateDescLe a b` is `b.rate ≤ a.rate`),
the loser list is non-decreasing, and both lists have at most 30 entries.
-/
theorem selectMovers_filter_sorted_bounded (rows : List InstrumentDay) :
    (∀ r ∈ marketFilter rows, 1000 ≤ r.volume ∧ -30 ≤ r.rate ∧ r.rate ≤ 30) ∧
    (selectMovers rows).gainers.Pairwise rateDescLe ∧
    (selectMovers rows).losers.Pairwise rateAscLe ∧
    (selectMovers rows).gainers.length ≤ 30 ∧
    (selectMovers rows).losers.length ≤ 30 := by
  refine ⟨?_, ?_, ?_, ?_, ?_⟩
  · intro r hr
    have hp := of_decide_eq_true (List.mem_filter.1 hr).2
    exact ⟨hp.1, hp.2.2, hp.2.1⟩
  · exact (List.sorted_insertionSort rateDescLe (marketFilter rows)).sublist
      (List.take_sublist 30 _)
  · exact (List.sorted_insertionSort rateAscLe (marketFilter rows)).sublist
      (List.take_sublist 30 _)
  · show (((marketFilter rows).insertionSort rateDescLe).take 30).length ≤ 30
    rw [List.length_take]
    exact min_le_left 30 _
  · show (((marketFilter rows).insertionSort rateAscLe).take 30).length ≤ 30
    rw [List.length_take]
    exact min_le_left 30 _

/-- C5 witness: the concrete two-row day — the qualifying row passes the
bound conditions and the concrete list lengths are within 30. -/
theorem selectMovers_filter_sorted_bounded_witness :
    (1000 ≤ exRowG.volume ∧ -30 ≤ exRowG.rate ∧ exRowG.rate ≤ 30) ∧
    (selectMovers exRows).gainers.length ≤ 30 :=
  ⟨(selectMovers_filter_sorted_bounded exRows).1 exRowG (by decide),
   (selectMovers_filter_sorted_bounded exRows).2.2.2.1⟩

/-! ### C3: short mover lists are fine, an empty filtered set is not -/

/--
C3 (counterexample).  The claim says report building succeeds whenever a
direction has fewer than 30 qualifying movers, including zero.  On a day
whose rows all fail the liquidity filter the filtered set is empty, both
mover lists are empty, and `gainers.iloc[0]` (line 446) raises `IndexError`:
report building fails, modelled by `buildDayReport = none`.
-/
theorem buildDayReport_empty_filter_counterexample :
    marketFilter [exRow0] = [] ∧
    (selectMovers [exRow0]).gainers.length < 30 ∧
    buildDayReport [exRow0] = none := by
  decide

/--
C3 (amended).  Whenever the filtered set is nonempty, mover selection and
report building succeed, with gainer and loser lists of length
`min 30 n` (hence shorter than 30 exactly when fewer than 30 rows qualify);
with an empty filtered set the selection still succeeds but report building
fails at the representative strongest/weakest extraction.
-/
theorem buildDayReport_succeeds_of_nonempty (rows : List InstrumentDay)
    (h : marketFilter rows ≠ []) :
    (buildDayReport rows).isSome = true ∧
    (selectMovers rows).gainers.length = min 30 (marketFilter rows).length ∧
    (selectMovers rows).losers.length = min 30 (marketFilter rows).length := by
  have hlg : ((marketFilter rows).insertionSort rateDescLe).length
      = (marketFilter rows).length :=
    (List.perm_insertionSort rateDescLe (marketFilter rows)).length_eq
  have hll : ((marketFilter rows).insertionSort rateAscLe).length
      = (marketFilter rows).length :=
    (List.perm_insertionSort rateAscLe (marketFilter rows)).length_eq
  have hgne : (marketFilter rows).insertionSort rateDescLe ≠ [] := by
    intro hnil
    apply h
    apply List.length_eq_zero.1
    rw [← hlg, hnil]
    rfl
  have hlne : (marketFilter rows).insertionSort rateAscLe ≠ [] := by
    intro hnil
    apply h
    apply List.length_eq_zero.1
    rw [← hll, hnil]
    rfl
  obtain ⟨x, xs, hx⟩ := List.exists_cons_of_ne_nil hgne
  obtain ⟨y, ys, hy⟩ := List.exists_cons_of_ne_nil hlne
  have hheadg : (selectMovers rows).gainers.head? = some x := by
    show (((marketFilter rows).insertionSort rateDescLe).take 30).head? = some x
    rw [head?_take 30 _ (by norm_num), hx]
    rfl
  have hheadl : (selectMovers rows).losers.head? = some y := by
    show (((marketFilter rows).insertionSort rateAscLe).take 30).head? = some y
    rw [head?_take 30 _ (by norm_num), hy]
    rfl
  refine ⟨?_, ?_, ?_⟩
  · unfold buildDayReport
    dsimp only
    rw [hheadg, hheadl]
    rfl
  · show (((marketFilter rows).insertionSort rateDescLe).take 30).length = _
    rw [List.length_take, hlg]
  · show (((marketFilter rows).insertionSort rateAscLe).take 30).length = _
    rw [List.length_take, hll]

/-- C3 witness: on the concrete two-row day (2 < 30 qualifying movers)
report building succeeds and both lists have length `min 30 2 = 2`. -/
theorem buildDayReport_succeeds_of_nonempty_witness :
    (buildDayReport exRows).isSome = true ∧
    (selectMovers exRows).gainers.length = min 30 (marketFilter exRows).length ∧
    (selectMovers exRows).losers.length = min 30 (marketFilter exRows).length :=
  buildDayReport_succeeds_of_nonempty exRows (by decide)

/-! ### C7: the top-5 turnover concentration formula -/

/--
C7 (confirmed).  `topFocusPct` equals 100 times the turnover sum of the
first five gainers divided by the total turnover of the filtered set, and is
0 when that total is 0 (line 311:
`gainers.head(5) sum / total * 100 if total else 0`).
-/
theorem topFocus_formula (rows : List InstrumentDay) :
    (selectMovers rows).topFocus =
      if ((marketFilter rows).map (fun r => r.turnover)).sum = 0 then 0
      else 100 * (((selectMovers rows).gainers.take 5).map (fun r => r.turnover)).sum
        / ((marketFilter rows).map (fun r => r.turnover)).sum := by
  have hg : (selectMovers rows).gainers
      = ((marketFilter rows).insertionSort rateDescLe).take 30 := rfl
  rw [hg]
  by_cases h : ((marketFilter rows).map (fun r => r.turnover)).sum = 0
  · rw [if_pos h]
    show (if _ ≠ (0:ℚ) then _ else 0) = (0:ℚ)
    rw [if_neg (not_not_intro h)]
  · rw [if_neg h]
    show (if _ ≠ (0:ℚ) then _ else 0) = _
    rw [if_pos h]
    rw [div_mul_eq_mul_div]
    ring

/-! ### Association-list lemmas -/

theorem alookup_ainsert {β : Type} (m : List (String × β)) (key q : String)
    (val : β) :
    alookup (ainsert m key val) q = if key = q then some val else alookup m q := by
  induction m with
  | nil => simp [ainsert, alookup]
  | cons p rest ih =>
    obtain ⟨k, v⟩ := p
    by_cases hk : k = key
    · subst hk
      rw [ainsert, if_pos rfl]
      by_cases hq : k = q
      · subst hq; simp [alookup]
      · simp [alookup, hq]
    · rw [ainsert, if_neg hk]
      by_cases hq : k = q
      · subst hq
        have hne : ¬ k = k → False := fun h => h rfl
        have : ¬ key = k := fun h => hk h.symm
        simp [alookup, this]
      · simp [alookup, hq, ih]

theorem alookup_eq_none_iff {β : Type} (m : List (String × β)) (q : String) :
    alookup m q = none ↔ q ∉ akeys m := by
  induction m with
  | nil => simp [alookup, akeys]
  | cons p rest ih =>
    obtain ⟨k, v⟩ := p
    by_cases hq : k = q
    · subst hq; simp [alookup, akeys]
    · have hq2 : ¬ q = k := fun h => hq h.symm
      simp [alookup, akeys, hq, hq2, ih]

theorem alookup_isSome_iff {β : Type} (m : List (String × β)) (q : String) :
    (alookup m q).isSome = true ↔ q ∈ akeys m := by
  rw [Option.isSome_iff_ne_none]
  constructor
  · intro h
    by_cases hq : q ∈ akeys m
    · exact hq
    · exact absurd ((alookup_eq_none_iff m q).2 hq) h
  · intro h hnone
    exact ((alookup_eq_none_iff m q).1 hnone) h

theorem alookup_mem {β : Type} {m : List (String × β)} {q : String} {v : β}
    (h : alookup m q = some v) : (q, v) ∈ m := by
  induction m with
  | nil => exact absurd h (by simp [alookup])
  | cons p rest ih =>
    obtain ⟨k, w⟩ := p
    by_cases hq : k = q
    · subst hq
      rw [alookup, if_pos rfl] at h
      rw [← Option.some.inj h]
      exact List.mem_cons_self _ _
    · rw [alookup, if_neg hq] at h
      exact List.mem_cons_of_mem _ (ih h)

theorem akeys_cons {β : Type} (k : String) (v : β) (m : List (String × β)) :
    akeys ((k, v) :: m) = k :: akeys m := rfl

theorem akeys_ainsert {β : Type} (m : List (String × β)) (key : String)
    (val : β) :
    akeys (ainsert m key val) =
      if key ∈ akeys m then akeys m else akeys m ++ [key] := by
  induction m with
  | nil => simp [ainsert, akeys]
  | cons p rest ih =>
    obtain ⟨k, v⟩ := p
    by_cases hk : k = key
    · subst hk
      rw [ainsert, if_pos rfl]
      have hmem : k ∈ akeys ((k, v) :: rest) := by
        rw [akeys_cons]; exact List.mem_cons_self _ _
      rw [if_pos hmem, akeys_cons, akeys_cons]
    · rw [ainsert, if_neg hk]
      have hkq : ¬ key = k := fun h => hk h.symm
      by_cases hmem : key ∈ akeys rest
      · have h1 : key ∈ akeys ((k, v) :: rest) := by
          rw [akeys_cons]; exact List.mem_cons_of_mem _ hmem
        rw [if_pos h1, akeys_cons, akeys_cons, ih, if_pos hmem]
      · have h1 : key ∉ akeys ((k, v) :: rest) := by
          rw [akeys_cons]
          intro hx
          rcases List.mem_cons.1 hx with hx | hx
          · exact hkq hx
          · exact hmem hx
        rw [if_neg h1, akeys_cons, akeys_cons, ih, if_neg hmem, List.cons_append]

theorem mem_akeys_ainsert {β : Type} {m : List (String × β)} {q : String}
    (key : String) (val : β) (h : q ∈ akeys m) : q ∈ akeys (ainsert m key val) := by
  rw [akeys_ainsert]
  by_cases hmem : key ∈ akeys m
  · rw [if_pos hmem]; exact h
  · rw [if_neg hmem]; exact List.mem_append_left _ h

theorem nodup_akeys_ainsert {β : Type} {m : List (String × β)} (key : String)
    (val : β) (h : (akeys m).Nodup) : (akeys (ainsert m key val)).Nodup := by
  rw [akeys_ainsert]
  by_cases hmem : key ∈ akeys m
  · rw [if_pos hmem]; exact h
  · rw [if_neg hmem]
    rw [List.nodup_append]
    exact ⟨h, List.nodup_singleton key,
      fun a ha hb => hmem ((List.mem_singleton.1 hb) ▸ ha)⟩

theorem mem_ainsert {β : Type} {p : String × β} {m : List (String × β)}
    {key : String} {val : β} (h : p ∈ ainsert m key val) :
    p = (key, val) ∨ p ∈ m := by
  induction m with
  | nil =>
    rw [ainsert] at h
    exact Or.inl (List.mem_singleton.1 h)
  | cons q rest ih =>
    obtain ⟨k, v⟩ := q
    by_cases hk : k = key
    · subst hk
      rw [ainsert, if_pos rfl] at h
      rcases List.mem_cons.1 h with h | h
      · exact Or.inl h
      · exact Or.inr (List.mem_cons_of_mem _ h)
    · rw [ainsert, if_neg hk] at h
      rcases List.mem_cons.1 h with h | h
      · exact Or.inr (h ▸ List.mem_cons_self _ _)
      · rcases ih h with h | h
        · exact Or.inl h
        · exact Or.inr (List.mem_cons_of_mem _ h)

/-- A list maps to itself under a function fixing all its members. -/
theorem map_self_of_mem {α : Type} {l : List α} {f : α → α}
    (h : ∀ a ∈ l, f a = a) : l.map f = l := by
  induction l with
  | nil => rfl
  | cons a t ih =>
    rw [List.map_cons, h a (List.mem_cons_self a t),
      ih (fun b hb => h b (List.mem_cons_of_mem a hb))]

/-! ### Archive merge stage lemmas -/

/-- Records written by the per-day loop are well-formed. -/
theorem recWF_newRecord (r : NewReport) : recWF r.date (newRecordRec r) := by
  constructor
  · simp [compact_meta, newRecordRec, recGetD, alookup]
  · simp [newRecordRec, alookup]

/-- Placeholder records are well-formed. -/
theorem recWF_placeholder (d : String) : recWF d (placeholderRec d) := by
  constructor
  · simp [compact_meta, placeholderRec, recGetD, alookup]
  · simp [placeholderRec, alookup]

/-- Well-formedness of every entry survives an insertion of a well-formed
record. -/
theorem wf_ainsert {m : List (String × Rec)} {key : String} {val : Rec}
    (h : ∀ p ∈ m, recWF p.1 p.2) (hv : recWF key val) :
    ∀ p ∈ ainsert m key val, recWF p.1 p.2 := by
  intro p hp
  rcases mem_ainsert hp with hp | hp
  · rw [hp]; exact hv
  · exact h p hp

/-- The per-day loop does not touch keys outside the recomputed dates. -/
theorem metaAfterNews_alookup (news : List NewReport) :
    ∀ (m : List (String × Rec)) (q : String),
    q ∉ news.map (fun r => r.date) →
    alookup (metaAfterNews m news) q = alookup m q := by
  induction news with
  | nil => intro m q _; rfl
  | cons r rest ih =>
    intro m q hq
    have hq1 : q ∉ rest.map (fun r => r.date) := fun h =>
      hq (by rw [List.map_cons]; exact List.mem_cons_of_mem _ h)
    have hne : ¬ r.date = q := fun h =>
      hq (by rw [List.map_cons, ← h]; exact List.mem_cons_self _ _)
    show alookup (metaAfterNews (ainsert m r.date (newRecordRec r)) rest) q
      = alookup m q
    rw [ih _ q hq1, alookup_ainsert, if_neg hne]

theorem metaAfterNews_keys (news : List NewReport) :
    ∀ (m : List (String × Rec)) (q : String), q ∈ akeys m →
    q ∈ akeys (metaAfterNews m news) := by
  induction news with
  | nil => intro m q h; exact h
  | cons r rest ih =>
    intro m q h
    exact ih _ q (mem_akeys_ainsert _ _ h)

theorem metaAfterNews_nodup (news : List NewReport) :
    ∀ (m : List (String × Rec)), (akeys m).Nodup →
    (akeys (metaAfterNews m news)).Nodup := by
  induction news with
  | nil => intro m h; exact h
  | cons r rest ih =>
    intro m h
    exact ih _ (nodup_akeys_ainsert _ _ h)

theorem metaAfterNews_wf (news : List NewReport) :
    ∀ (m : List (String × Rec)), (∀ p ∈ m, recWF p.1 p.2) →
    ∀ p ∈ metaAfterNews m news, recWF p.1 p.2 := by
  induction news with
  | nil => intro m h; exact h
  | cons r rest ih =>
    intro m h
    exact ih _ (wf_ainsert h (recWF_newRecord r))

/-- The back-fill loop neither changes nor removes any present key. -/
theorem metaAfterDisc_preserve (discovered : List String) :
    ∀ (m : List (String × Rec)) (q : String), q ∈ akeys m →
    alookup (metaAfterDisc m discovered) q = alookup m q ∧
    q ∈ akeys (metaAfterDisc m discovered) := by
  induction discovered with
  | nil => intro m q hq; exact ⟨rfl, hq⟩
  | cons d rest ih =>
    intro m q hq
    show alookup (metaAfterDisc (if (alookup m d).isSome then m
        else ainsert m d (placeholderRec d)) rest) q = alookup m q ∧
      q ∈ akeys (metaAfterDisc (if (alookup m d).isSome then m
        else ainsert m d (placeholderRec d)) rest)
    by_cases hd : (alookup m d).isSome = true
    · rw [if_pos hd]
      exact ih m q hq
    · rw [if_neg hd]
      have hnone : alookup m d = none := by
        cases hcase : alookup m d with
        | none => rfl
        | some v => rw [hcase] at hd; exact absurd rfl hd
      have hdq : ¬ d = q := by
        intro h
        rw [h] at hnone
        exact ((alookup_eq_none_iff m q).1 hnone) hq
      obtain ⟨h1, h2⟩ := ih (ainsert m d (placeholderRec d)) q
        (mem_akeys_ainsert _ _ hq)
      refine ⟨?_, h2⟩
      rw [h1, alookup_ainsert, if_neg hdq]

theorem metaAfterDisc_nodup (discovered : List String) :
    ∀ (m : List (String × Rec)), (akeys m).Nodup →
    (akeys (metaAfterDisc m discovered)).Nodup := by
  induction discovered with
  | nil => intro m h; exact h
  | cons d rest ih =>
    intro m h
    show (akeys (metaAfterDisc (if (alookup m d).isSome then m
        else ainsert m d (placeholderRec d)) rest)).Nodup
    by_cases hd : (alookup m d).isSome = true
    · rw [if_pos hd]; exact ih m h
    · rw [if_neg hd]; exact ih _ (nodup_akeys_ainsert _ _ h)

theorem metaAfterDisc_wf (discovered : List String) :
    ∀ (m : List (String × Rec)), (∀ p ∈ m, recWF p.1 p.2) →
    ∀ p ∈ metaAfterDisc m discovered, recWF p.1 p.2 := by
  induction discovered with
  | nil => intro m h; exact h
  | cons d rest ih =>
    intro m h
    show ∀ p ∈ metaAfterDisc (if (alookup m d).isSome then m
        else ainsert m d (placeholderRec d)) rest, recWF p.1 p.2
    by_cases hd : (alookup m d).isSome = true
    · rw [if_pos hd]; exact ih m h
    · rw [if_neg hd]; exact ih _ (wf_ainsert h (recWF_placeholder d))

/-- On a well-formed archive the compaction of line 642 is the identity and
keeps every record keyed by its own date. -/
theorem reportsOf_entry (m : List (String × Rec))
    (hwf : ∀ p ∈ m, recWF p.1 p.2) (d : String) (hd : d ∈ akeys m) :
    recDate (compact_meta ((alookup m d).getD [])) = d ∧
    compact_meta ((alookup m d).getD []) = (alookup m d).getD [] := by
  obtain ⟨rec, hrec⟩ : ∃ rec, alookup m d = some rec := by
    cases hcase : alookup m d with
    | none => exact absurd hd ((alookup_eq_none_iff m d).1 hcase)
    | some r => exact ⟨r, rfl⟩
  have hwfd := hwf (d, rec) (alookup_mem hrec)
  rw [hrec]
  constructor
  · show recDate (compact_meta rec) = d
    rw [hwfd.1]
    show (alookup rec "date").getD "-" = d
    rw [hwfd.2]
    rfl
  · exact hwfd.1

/-- The final re-keying fold (line 647) does not touch keys that are no
record's date. -/
theorem foldl_final_not_mem (rs : List Rec) :
    ∀ (acc : List (String × Rec)) (q : String), q ∉ rs.map recDate →
    alookup (rs.foldl (fun m r => ainsert m (recDate r) r) acc) q
      = alookup acc q := by
  induction rs with
  | nil => intro acc q _; rfl
  | cons r rest ih =>
    intro acc q hq
    have hq1 : q ∉ rest.map recDate := fun h =>
      hq (by rw [List.map_cons]; exact List.mem_cons_of_mem _ h)
    have hne : ¬ recDate r = q := fun h =>
      hq (by rw [List.map_cons, ← h]; exact List.mem_cons_self _ _)
    rw [List.foldl_cons, ih _ q hq1, alookup_ainsert, if_neg hne]

/-- When the record dates are distinct, the final re-keying fold maps each
record's date to that record. -/
theorem foldl_final_self (rs : List Rec) :
    ∀ (acc : List (String × Rec)) (r : Rec), (rs.map recDate).Nodup → r ∈ rs →
    alookup (rs.foldl (fun m r => ainsert m (recDate r) r) acc) (recDate r)
      = some r := by
  induction rs with
  | nil => intro acc r _ h; exact absurd h (List.not_mem_nil r)
  | cons r0 rest ih =>
    intro acc r hnd hr
    rw [List.map_cons, List.nodup_cons] at hnd
    rw [List.foldl_cons]
    rcases List.mem_cons.1 hr with hr | hr
    · rw [hr]
      rw [foldl_final_not_mem rest _ _ (hr ▸ hnd.1), alookup_ainsert, if_pos rfl]
    · exact ih _ r hnd.2 hr

/-! ### C9: the archive merge -/

/--
C9 (counterexample).  The claim says the merged archive contains every date
of ANY existing archive.  But the final write (line 647) re-keys every
record by its own `date` field; an archive entry whose record's `date`
field disagrees with its key is therefore re-filed under the inner date and
its original key disappears from the merged archive.
-/
theorem merge_drops_mismatched_date_key :
    "2024-01-01" ∈ akeys exBadArchive ∧
    alookup (runMerge exBadArchive [] []) "2024-01-01" = none ∧
    alookup (runMerge exBadArchive [] []) "9999-12-31"
      = some (compact_meta [("date", "9999-12-31")]) := by
  decide

/--
C9 (amended).  For every existing archive that is well-formed — distinct
keys and every record in compact shape with its `date` field equal to its
key, which is the shape this script itself always writes — the merged
archive contains every date of the existing archive, and every date not
among the recomputed dates keeps its previous record unchanged; the archive
is never pruned.
-/
theorem merge_preserves_wellformed_archive
    (existing : List (String × Rec)) (news : List NewReport)
    (discovered : List String)
    (hnd : (akeys existing).Nodup)
    (hwf : ∀ p ∈ existing, recWF p.1 p.2)
    (k : String) (hk : k ∈ akeys existing) :
    k ∈ akeys (runMerge existing news discovered) ∧
    (k ∉ news.map (fun r => r.date) →
      alookup (runMerge existing news discovered) k = alookup existing k) := by
  have h1keys : k ∈ akeys (metaAfterNews existing news) :=
    metaAfterNews_keys news existing k hk
  have h1nd := metaAfterNews_nodup news existing hnd
  have h1wf := metaAfterNews_wf news existing hwf
  obtain ⟨h2look, h2keys⟩ :=
    metaAfterDisc_preserve discovered (metaAfterNews existing news) k h1keys
  have h2nd := metaAfterDisc_nodup discovered _ h1nd
  have h2wf := metaAfterDisc_wf discovered _ h1wf
  have hperm := List.perm_insertionSort strle
    (akeys (metaAfterDisc (metaAfterNews existing news) discovered))
  have hsknd : ((akeys (metaAfterDisc (metaAfterNews existing news)
      discovered)).insertionSort strle).Nodup :=
    hperm.nodup_iff.2 h2nd
  have hdates : (reportsOf (metaAfterDisc (metaAfterNews existing news)
        discovered)).map recDate
      = (akeys (metaAfterDisc (metaAfterNews existing news)
        discovered)).insertionSort strle := by
    show (((akeys (metaAfterDisc (metaAfterNews existing news)
        discovered)).insertionSort strle).map
        (fun d => compact_meta ((alookup (metaAfterDisc
          (metaAfterNews existing news) discovered) d).getD []))).map recDate
      = _
    rw [List.map_map]
    exact map_self_of_mem (fun d hd =>
      (reportsOf_entry _ h2wf d (hperm.mem_iff.1 hd)).1)
  have hdnd : ((reportsOf (metaAfterDisc (metaAfterNews existing news)
      discovered)).map recDate).Nodup := by
    rw [hdates]; exact hsknd
  have hk2 : k ∈ (akeys (metaAfterDisc (metaAfterNews existing news)
      discovered)).insertionSort strle := hperm.mem_iff.2 h2keys
  have hkrep : compact_meta ((alookup (metaAfterDisc
      (metaAfterNews existing news) discovered) k).getD [])
      ∈ reportsOf (metaAfterDisc (metaAfterNews existing news) discovered) :=
    List.mem_map_of_mem _ hk2
  have hkdate : recDate (compact_meta ((alookup (metaAfterDisc
      (metaAfterNews existing news) discovered) k).getD [])) = k :=
    (reportsOf_entry _ h2wf k h2keys).1
  have hself := foldl_final_self
    (reportsOf (metaAfterDisc (metaAfterNews existing news) discovered))
    [] _ hdnd hkrep
  rw [hkdate] at hself
  constructor
  · have hsome : (alookup (runMerge existing news discovered) k).isSome = true := by
      show (alookup ((reportsOf (metaAfterDisc (metaAfterNews existing news)
        discovered)).foldl (fun m r => ainsert m (recDate r) r) []) k).isSome
        = true
      rw [hself]
      rfl
    exact (alookup_isSome_iff _ k).1 hsome
  · intro hknew
    have e1 : alookup (metaAfterNews existing news) k = alookup existing k :=
      metaAfterNews_alookup news existing k hknew
    have hid : compact_meta ((alookup (metaAfterDisc
        (metaAfterNews existing news) discovered) k).getD [])
        = (alookup (metaAfterDisc (metaAfterNews existing news)
          discovered) k).getD [] :=
      (reportsOf_entry _ h2wf k h2keys).2
    show alookup ((reportsOf (metaAfterDisc (metaAfterNews existing news)
        discovered)).foldl (fun m r => ainsert m (recDate r) r) []) k
      = alookup existing k
    rw [hself, hid, h2look, e1]
    cases hcase : alookup existing k with
    | none => exact absurd hk ((alookup_eq_none_iff existing k).1 hcase)
    | some rec => rfl

/-- C9 witness: a concrete well-formed one-entry archive, no recomputed days
and no discovered files — the single date survives with its record intact. -/
theorem merge_preserves_wellformed_archive_witness :
    "2024-01-01" ∈ akeys (runMerge exGoodArchive [] []) ∧
    ("2024-01-01" ∉ ([] : List NewReport).map (fun r => r.date) →
      alookup (runMerge exGoodArchive [] []) "2024-01-01"
        = alookup exGoodArchive "2024-01-01") :=
  merge_preserves_wellformed_archive exGoodArchive [] [] (by decide)
    (by decide) "2024-01-01" (by decide)

end MarketBlog
